/-
Verification of the deterministic transaction parser of the finance_tracker
repository (src/mcp-server/tools/transaction_parser.py) against its
natural-language specification.

The embedding works over `List Char`.  Python regular-expression matching is
modelled in two ways:
* the four amount patterns and the four absolute-date patterns are compiled by
  hand into deterministic scanners; comments justify, pattern by pattern, why
  backtracking cannot change the outcome for the concrete regex at hand
  (adjacent character classes are disjoint);
* the category-hint patterns, which contain lazy repetition and real
  backtracking, run on a small regex interpreter (`RE` / `runRE`) that
  reproduces the leftmost, priority-ordered backtracking semantics of the
  `re` module for the constructs used.

Machine floats of the source are modelled by `ℚ`; the weights 0.4 / 0.3 /
0.2 / 0.1 and all comparisons in the source give identical results for IEEE
doubles and for rationals on every reachable value, as each reachable
confidence sum is a sum of distinct elements of {0.4, 0.3, 0.2, 0.1} and the
double sums of those hit 0.5 exactly where the rational sums do.
`datetime` values are modelled by their epoch-day number together with the
calendar year, the only two components the parser ever uses.
-/
import Mathlib

namespace FinanceTracker

/-! ### Character classes (ASCII fragment of the Python semantics) -/

/-- Whitespace characters of Python `\s` (ASCII range). -/
def pySpace (c : Char) : Bool :=
  c == ' ' || c == '\t' || c == '\n' || c == '\r' || c == '\x0b' || c == '\x0c'

/-- The character class `[0-9,]` used by the amount patterns. -/
def isDigitComma (c : Char) : Bool := c.isDigit || c == ','

/-- The character class `[a-z]`. -/
def isLowerAZ (c : Char) : Bool := decide ('a' ≤ c) && decide (c ≤ 'z')

/-- Word characters of Python `\w` (ASCII range), used for `\b` boundaries. -/
def isWordChar (c : Char) : Bool :=
  (decide ('a' ≤ c) && decide (c ≤ 'z')) || (decide ('A' ≤ c) && decide (c ≤ 'Z')) ||
    c.isDigit || c == '_'

/-- One character of `str.lower` (ASCII range).  Written as an explicit table
so that facts about it follow by case analysis. -/
def pyLowerChar (c : Char) : Char :=
  match c with
  | 'A' => 'a' | 'B' => 'b' | 'C' => 'c' | 'D' => 'd' | 'E' => 'e'
  | 'F' => 'f' | 'G' => 'g' | 'H' => 'h' | 'I' => 'i' | 'J' => 'j'
  | 'K' => 'k' | 'L' => 'l' | 'M' => 'm' | 'N' => 'n' | 'O' => 'o'
  | 'P' => 'p' | 'Q' => 'q' | 'R' => 'r' | 'S' => 's' | 'T' => 't'
  | 'U' => 'u' | 'V' => 'v' | 'W' => 'w' | 'X' => 'x' | 'Y' => 'y'
  | 'Z' => 'z'
  | c => c

/-- `str.lower` on a character list (ASCII range). -/
def pyLower (cs : List Char) : List Char := cs.map pyLowerChar

/-! ### Substring and prefix tests (Python `in`, literal regex matching) -/

/-- Does `n` occur at the very start of `h`? -/
def listStartsWith : List Char → List Char → Bool
  | [], _ => true
  | _ :: _, [] => false
  | a :: as, b :: bs => a == b && listStartsWith as bs

/-- Case-insensitive version: the needle is expected lower-case, the haystack
is lowered character by character. -/
def startsWithCI : List Char → List Char → Bool
  | [], _ => true
  | _ :: _, [] => false
  | a :: as, b :: bs => a == pyLowerChar b && startsWithCI as bs

/-- Python `in`: contiguous-substring test. -/
def substr (n h : List Char) : Bool :=
  match h with
  | [] => n.isEmpty
  | _ :: t => listStartsWith n h || substr n t

/-! ### Numeric conversion (`float(...)` on the strings reachable here) -/

/-- Value of a digit character. -/
def digitVal (c : Char) : ℕ := c.toNat - 48

/-- Base-10 value of a digit string. -/
def digitsVal (ds : List Char) : ℕ := ds.foldl (fun a c => 10 * a + digitVal c) 0

/-- Python `float(...)` restricted to the strings the amount patterns can
produce after comma-stripping: digit runs with at most one dot followed by
digits.  Returns `none` exactly where `float` raises `ValueError` on those
strings (empty string, stray characters, trailing dot). -/
def parseQ (s : List Char) : Option ℚ :=
  let intPart := s.takeWhile Char.isDigit
  match s.drop intPart.length with
  | [] => if intPart.isEmpty then none else some (digitsVal intPart)
  | '.' :: frac =>
      if frac.isEmpty then
        if intPart.isEmpty then none else some (digitsVal intPart)
      else if frac.all Char.isDigit then
        some ((digitsVal intPart : ℚ) + (digitsVal frac : ℚ) / (10 : ℚ) ^ frac.length)
      else none
  | _ => none

/-- The numeric value denoted by a matched token: integer digits `ds`
(with thousands separators) and fractional token `frac`
(either `[]` or `['.', d₁, d₂]`). -/
def numValue (ds frac : List Char) : ℚ :=
  (digitsVal (ds.filter (fun c => c != ',')) : ℚ) +
    (if frac.isEmpty then 0 else (digitsVal (frac.drop 1) : ℚ) / 100)

/-! ### Amount extractor (`parse_amount`, transaction_parser.py lines 52-80)

The four patterns are tried in order; the first whose leftmost match converts
to a strictly positive float wins; a failed conversion or a non-positive value
moves on to the next pattern (`re.search` is called once per pattern). -/

/-- The currency glyphs `[₹$€£¥]`. -/
def glyphs : List Char := ['₹', '$', '€', '£', '¥']

/-- Greedy match of `[0-9,]+(?:\.[0-9]{2})?` at the start of `cs`, returning
the matched text.  No backtracking is possible: `[0-9,]`, `.` and end of
pattern are disjoint, so the greedy run and the optional two-digit fraction
are forced. -/
def matchNum (cs : List Char) : Option (List Char) :=
  let ds := cs.takeWhile isDigitComma
  if ds.isEmpty then none
  else
    some (ds ++
      match cs.drop ds.length with
      | '.' :: a :: b :: _ => if a.isDigit && b.isDigit then ['.', a, b] else []
      | _ => [])

/-- Match of pattern 1, `[₹$€£¥]\s*([0-9,]+(?:\.[0-9]{2})?)`, anchored at the
start of `cs`; returns the group-1 text.  `\s*` is forced maximal because a
retained space cannot start `[0-9,]+`. -/
def matchPat1At (cs : List Char) : Option (List Char) :=
  match cs with
  | [] => none
  | c :: rest => if c ∈ glyphs then matchNum (rest.dropWhile pySpace) else none

/-- `re.search` for pattern 1: leftmost position whose anchored match
succeeds. -/
def searchPat1 : List Char → Option (List Char)
  | [] => none
  | c :: rest =>
    match matchPat1At (c :: rest) with
    | some g => some g
    | none => searchPat1 rest

/-- The currency-code alternation `(?:inr|usd|eur|gbp|jpy)`. -/
def currencyCodes : List (List Char) :=
  [['i','n','r'], ['u','s','d'], ['e','u','r'], ['g','b','p'], ['j','p','y']]

/-- Match of pattern 2, `([0-9,]+(?:\.[0-9]{2})?)\s*(?:inr|usd|eur|gbp|jpy)`,
anchored at the start of `cs`.  A shortened `[0-9,]+` run is always followed
by another `[0-9,]` character, which can start neither the fraction, nor
`\s*`'s continuation, nor a code letter, so the greedy choices are forced. -/
def matchPat2At (cs : List Char) : Option (List Char) :=
  match matchNum cs with
  | none => none
  | some cap =>
    let rest := (cs.drop cap.length).dropWhile pySpace
    if currencyCodes.any (fun code => listStartsWith code rest) then some cap else none

/-- `re.search` for pattern 2. -/
def searchPat2 : List Char → Option (List Char)
  | [] => none
  | c :: rest =>
    match matchPat2At (c :: rest) with
    | some g => some g
    | none => searchPat2 rest

/-- The keyword alternation `(?:amount|of|rupees|dollars|euros)`; the five
words start with five distinct letters, so at most one can match at a given
position. -/
def amountWords : List (List Char) :=
  [['a','m','o','u','n','t'], ['o','f'], ['r','u','p','e','e','s'],
   ['d','o','l','l','a','r','s'], ['e','u','r','o','s']]

/-- Match of pattern 3,
`(?:amount|of|rupees|dollars|euros)\s*(?:is)?\s*:?\s*([0-9,]+(?:\.[0-9]{2})?)`,
anchored at the start of `cs`.  Every optional element, if present, starts
with a character (`i`, `:`, space) that could not be consumed by any later
element, so the greedy choices are forced. -/
def matchPat3At (cs : List Char) : Option (List Char) :=
  match amountWords.find? (fun w => listStartsWith w cs) with
  | none => none
  | some w =>
    let s1 := (cs.drop w.length).dropWhile pySpace
    let s2 := if listStartsWith ['i','s'] s1 then s1.drop 2 else s1
    let s3 := s2.dropWhile pySpace
    let s4 := match s3 with
      | ':' :: r => r
      | r => r
    matchNum (s4.dropWhile pySpace)

/-- `re.search` for pattern 3. -/
def searchPat3 : List Char → Option (List Char)
  | [] => none
  | c :: rest =>
    match matchPat3At (c :: rest) with
    | some g => some g
    | none => searchPat3 rest

/-- `re.search` for pattern 4, the bare `([0-9,]+(?:\.[0-9]{2})?)`: the
leftmost `[0-9,]` character starts the match. -/
def searchPat4 : List Char → Option (List Char)
  | [] => none
  | c :: rest =>
    match matchNum (c :: rest) with
    | some g => some g
    | none => searchPat4 rest

/-- One iteration of the pattern loop body: on a match, strip commas, convert,
and keep the value only if strictly positive. -/
def attemptPattern (found : Option (List Char)) : Option ℚ :=
  match found with
  | none => none
  | some cap =>
    match parseQ (cap.filter (fun c => c != ',')) with
    | none => none
    | some v => if 0 < v then some v else none

/-- `TransactionParser.parse_amount`: the four patterns in strict priority
order over the lower-cased text. -/
def parse_amount (text : String) : Option ℚ :=
  let t := pyLower text.data
  match attemptPattern (searchPat1 t) with
  | some v => some v
  | none =>
    match attemptPattern (searchPat2 t) with
    | some v => some v
    | none =>
      match attemptPattern (searchPat3 t) with
      | some v => some v
      | none => attemptPattern (searchPat4 t)

/-! ### Type classifier (`detect_type`, transaction_parser.py lines 124-140)

The source stores the keywords in Python sets; set iteration order is
irrelevant here because only membership of *some* keyword is tested, so lists
in source order are a faithful model.  The duplicate "charged" of the expense
set literal is kept once, as a set would. -/

/-- Expense keywords (transaction_parser.py lines 29-33). -/
def EXPENSE_KEYWORDS : List String :=
  ["spent", "paid", "bought", "purchased", "charged", "cost",
   "expense", "spent money on", "spent on", "paid for", "add expense",
   "debit", "out", "eating", "eat", "ate", "delivery"]

/-- Income keywords (transaction_parser.py lines 36-40). -/
def INCOME_KEYWORDS : List String :=
  ["earned", "received", "got", "income", "salary", "bonus",
   "refund", "credited", "credit", "earning", "earn", "payment received",
   "transferred in", "deposit", "deposited", "added", "received money"]

/-- `TransactionParser.detect_type`: income keywords first, then expense
keywords, default EXPENSE. -/
def detect_type (text : String) : String :=
  let t := pyLower text.data
  if INCOME_KEYWORDS.any (fun k => substr k.data t) then "INCOME"
  else if EXPENSE_KEYWORDS.any (fun k => substr k.data t) then "EXPENSE"
  else "EXPENSE"

/-! ### A small backtracking regex interpreter

Used for the category-hint patterns (and the absolute-date pattern searches),
whose lazy groups genuinely backtrack.  Alternation is ordered, `opt`/greedy
repetition try the longer alternative first, lazy repetition the shorter one,
exactly as the `re` module does; repetition is only ever applied to
single-character classes, which is all the source patterns need, so every
repetition step consumes exactly one character and plain enumeration of run
lengths terminates.  `eos` is a strict end anchor; Python `$` also matches
before a single trailing newline, but every capture class below contains
`\s`, so a match via that extra position is reproduced here with the newline
inside the capture, and the subsequent `strip()` erases the difference. -/

inductive RE where
  | eps : RE
  | lit : List Char → RE
  | cls : (Char → Bool) → RE
  | seq : RE → RE → RE
  | alt : RE → RE → RE
  | opt : RE → RE
  | starG : (Char → Bool) → RE
  | plusG : (Char → Bool) → RE
  | plusL : (Char → Bool) → RE
  | grp : RE → RE
  | eos : RE

/-- Run regex `r` on `cs` in continuation-passing style; the continuation
receives the remaining suffix and the current group capture, and the result
list enumerates the alternatives in the priority order of the `re` module. -/
def runRE (r : RE) (cs : List Char) (cap : Option (List Char))
    (k : List Char → Option (List Char) → List (List Char × Option (List Char))) :
    List (List Char × Option (List Char)) :=
  match r with
  | .eps => k cs cap
  | .lit l => if listStartsWith l cs then k (cs.drop l.length) cap else []
  | .cls p =>
    match cs with
    | c :: rest => if p c then k rest cap else []
    | [] => []
  | .seq a b => runRE a cs cap (fun cs2 cap2 => runRE b cs2 cap2 k)
  | .alt a b => runRE a cs cap k ++ runRE b cs cap k
  | .opt a => runRE a cs cap k ++ k cs cap
  | .starG p =>
    let n := (cs.takeWhile p).length
    (List.range (n + 1)).reverse.flatMap (fun i => k (cs.drop i) cap)
  | .plusG p =>
    let n := (cs.takeWhile p).length
    ((List.range n).map (· + 1)).reverse.flatMap (fun i => k (cs.drop i) cap)
  | .plusL p =>
    let n := (cs.takeWhile p).length
    ((List.range n).map (· + 1)).flatMap (fun i => k (cs.drop i) cap)
  | .grp a => runRE a cs cap (fun cs2 _ => k cs2 (some (cs.take (cs.length - cs2.length))))
  | .eos => if cs.isEmpty then k cs cap else []

/-- Anchored match at the start of `cs`: the first alternative in priority
order, as `(remaining suffix, group capture)`. -/
def reMatchAt (r : RE) (cs : List Char) : Option (List Char × Option (List Char)) :=
  (runRE r cs none (fun rest cap => [(rest, cap)])).head?

/-- `re.search`: leftmost matching position (the empty position at the end of
the string included), returning `(whole match, group capture)`. -/
def reSearch (r : RE) (cs : List Char) : Option (List Char × Option (List Char)) :=
  match reMatchAt r cs with
  | some (rest, cap) => some (cs.take (cs.length - rest.length), cap)
  | none =>
    match cs with
    | [] => none
    | _ :: t => reSearch r t

/-- Greedy counted repetition `p{0,n}` of a single-character class. -/
def clsUpTo (p : Char → Bool) : Nat → RE
  | 0 => .eps
  | n + 1 => .opt (.seq (.cls p) (clsUpTo p n))

/-- Chain a list of regexes into one sequence. -/
def seqAll : List RE → RE
  | [] => .eps
  | r :: rs => .seq r (seqAll rs)

/-- Ordered alternation of literal words. -/
def altLits : List (List Char) → RE
  | [] => .cls (fun _ => false)    -- unreachable in the patterns below; matches nothing
  | [w] => .lit w
  | w :: ws => .alt (.lit w) (altLits ws)

/-! ### Category-hint extractor (`extract_category_hint`, lines 142-164) -/

/-- Literal regex from a string. -/
def litS (s : String) : RE := .lit s.data

/-- The capture class `[a-z\s&]`. -/
def hintCls (c : Char) : Bool := isLowerAZ c || pySpace c || c == '&'

/-- `(?:\s+(?:w₁|w₂|…)|$)` — the stop alternation closing each hint
pattern. -/
def hintStop (ws : List String) : RE :=
  .alt (.seq (.plusG pySpace) (altLits (ws.map String.data))) .eos

/-- `for\s+(?:a\s+)?([a-z\s&]+?)(?:\s+(?:today|yesterday|tomorrow|on|at)|$)` -/
def hintPatFor : RE :=
  seqAll [litS "for", .plusG pySpace, .opt (.seq (litS "a") (.plusG pySpace)),
    .grp (.plusL hintCls), hintStop ["today", "yesterday", "tomorrow", "on", "at"]]

/-- `on\s+([a-z\s&]+?)(?:\s+(?:today|yesterday|tomorrow)|$)` -/
def hintPatOn : RE :=
  seqAll [litS "on", .plusG pySpace, .grp (.plusL hintCls),
    hintStop ["today", "yesterday", "tomorrow"]]

/-- `(?:at|in)\s+([a-z\s&]+?)(?:\s+(?:today|yesterday|tomorrow)|$)` -/
def hintPatAt : RE :=
  seqAll [.alt (litS "at") (litS "in"), .plusG pySpace, .grp (.plusL hintCls),
    hintStop ["today", "yesterday", "tomorrow"]]

/-- `(?:bought|spent|paid)\s+(?:a|an)?\s+([a-z\s&]+?)(?:\s+(?:for|on|at)|$)` -/
def hintPatBought : RE :=
  seqAll [.alt (litS "bought") (.alt (litS "spent") (litS "paid")), .plusG pySpace,
    .opt (.alt (litS "a") (litS "an")), .plusG pySpace, .grp (.plusL hintCls),
    hintStop ["for", "on", "at"]]

/-- The four hint patterns, in source order. -/
def HINT_PATTERNS : List RE := [hintPatFor, hintPatOn, hintPatAt, hintPatBought]

/-- Python `str.strip()` (ASCII whitespace). -/
def pyStrip (cs : List Char) : List Char :=
  ((cs.dropWhile pySpace).reverse.dropWhile pySpace).reverse

/-- The pattern loop of `extract_category_hint`: first pattern whose stripped
group-1 capture is non-empty of length > 1. -/
def firstHint : List RE → List Char → Option String
  | [], _ => none
  | p :: ps, t =>
    match reSearch p t with
    | some (_, some cap) =>
      let hint := pyStrip cap
      if hint.isEmpty = false ∧ 1 < hint.length then some (String.mk hint)
      else firstHint ps t
    | _ => firstHint ps t

/-- `TransactionParser.extract_category_hint`. -/
def extract_category_hint (text : String) : Option String :=
  firstHint HINT_PATTERNS (pyLower text.data)

/-! ### Description cleaner (`extract_description`, lines 166-196)

Each `re.sub(pattern, "", text)` is a left-to-right scan replacing
non-overlapping matches; none of the patterns can match the empty string, so
each replacement consumes at least one character.  The scanners below carry
fuel initialised to the length of the input; since every iteration consumes at
least one character of the remaining text, the fuel never runs out and the
fuel-free semantics is computed exactly. -/

/-- Generic `re.sub(p, "", ·)` scan: `step` is the anchored matcher of `p`,
returning the remainder after a match. -/
def scanSub (step : List Char → Option (List Char)) : Nat → List Char → List Char
  | 0, cs => cs
  | _ + 1, [] => []
  | fuel + 1, c :: rest =>
    match step (c :: rest) with
    | some r => scanSub step fuel r
    | none => c :: scanSub step fuel rest

/-- Generic scan for patterns bracketed by `\b`: `step` additionally sees the
previous character of the original text (`none` at the start). -/
def scanSubW (step : Option Char → List Char → Option (List Char × Char)) :
    Nat → Option Char → List Char → List Char
  | 0, _, cs => cs
  | _ + 1, _, [] => []
  | fuel + 1, prev, c :: rest =>
    match step prev (c :: rest) with
    | some (r, lastc) => scanSubW step fuel (some lastc) r
    | none => c :: scanSubW step fuel (some c) rest

/-- Anchored matcher of `[₹$€£¥]\s*[0-9,]+(?:\.[0-9]{2})?` (sub step 1),
returning the remainder; run on the original-case text. -/
def stepAmountTok (cs : List Char) : Option (List Char) :=
  match cs with
  | [] => none
  | c :: rest =>
    if c ∈ glyphs then
      let afterWs := rest.dropWhile pySpace
      let ds := afterWs.takeWhile isDigitComma
      if ds.isEmpty then none
      else
        some (match afterWs.drop ds.length with
          | '.' :: a :: b :: r => if a.isDigit && b.isDigit then r else '.' :: a :: b :: r
          | r => r)
    else none

/-- Anchored matcher of the bare `[0-9,]+(?:\.[0-9]{2})?` (sub step 2). -/
def stepNumberTok (cs : List Char) : Option (List Char) :=
  let ds := cs.takeWhile isDigitComma
  if ds.isEmpty then none
  else
    some (match cs.drop ds.length with
      | '.' :: a :: b :: r => if a.isDigit && b.isDigit then r else '.' :: a :: b :: r
      | r => r)

/-- Anchored matcher of an ordered literal alternation (sub step 3); the
literals are matched case-sensitively, exactly as the source pattern
`(?:today|yesterday|tomorrow|now|morning|night)` without `re.IGNORECASE`. -/
def stepLits (lits : List (List Char)) (cs : List Char) : Option (List Char) :=
  match lits.find? (fun l => listStartsWith l cs) with
  | some l => some (cs.drop l.length)
  | none => none

/-- The relative-date literals removed by sub step 3, in source order. -/
def RELDATE_LITS : List (List Char) :=
  ["today", "yesterday", "tomorrow", "now", "morning", "night"].map String.data

/-- The capitalised month abbreviations of sub step 4. -/
def MONTH_ABBREV_CAP : List (List Char) :=
  ["Jan", "Feb", "Mar", "Apr", "May", "Jun", "Jul", "Aug", "Sep", "Oct", "Nov",
   "Dec"].map String.data

/-- Anchored matcher of `\d{1,2}\s+(?:Jan|…|Dec)` (sub step 4).  `\d{1,2}`
takes two digits when it can; a digit left behind blocks `\s+`, so for a
digit run of length ≥ 3 both alternatives fail, as in the source. -/
def stepDayMonth (cs : List Char) : Option (List Char) :=
  let ds := cs.takeWhile Char.isDigit
  let tryFrom : Nat → Option (List Char) := fun n =>
    let r := cs.drop n
    let sp := r.takeWhile pySpace
    if sp.isEmpty then none
    else
      match (MONTH_ABBREV_CAP).find? (fun m => listStartsWith m (r.drop sp.length)) with
      | some m => some ((r.drop sp.length).drop m.length)
      | none => none
  if 2 ≤ ds.length then
    match tryFrom 2 with
    | some r => some r
    | none => if ds.length = 2 then tryFrom 1 else none
  else if ds.length = 1 then tryFrom 1
  else none

/-- Anchored matcher of `\b kw \b` with `re.IGNORECASE` (sub steps 5 and 6):
the first keyword of `kws` matching at this position wins.  Every keyword
begins and ends with a word character, so the boundaries reduce to the
neighbour characters not being word characters. -/
def stepWord (kws : List (List Char)) (prev : Option Char) (cs : List Char) :
    Option (List Char × Char) :=
  let boundaryBefore := match prev with
    | none => true
    | some p => !isWordChar p
  if boundaryBefore then
    match kws.find? (fun kw =>
        !kw.isEmpty && startsWithCI kw cs &&
          (match cs.drop kw.length with
           | [] => true
           | c :: _ => !isWordChar c)) with
    | some kw => some (cs.drop kw.length, kw.getLastD 'x')
    | none => none
  else none

/-- The transaction-type keywords stripped by sub step 5:
`list(EXPENSE_KEYWORDS) + list(INCOME_KEYWORDS)`.  Each keyword is its own
`re.sub` pass.  (The source iterates Python sets here, whose order depends on
the process hash seed; this model fixes the source-literal order.) -/
def STRIP_KEYWORDS : List String := EXPENSE_KEYWORDS ++ INCOME_KEYWORDS

/-- The prepositions of sub step 6, removed in a single alternation pass. -/
def PREPOSITIONS : List (List Char) :=
  ["for", "on", "at", "in", "to", "from"].map String.data

/-- `re.sub(r'\s+', " ", ·)` (sub step 7, before the final `strip()`). -/
def collapseWs : Nat → List Char → List Char
  | 0, cs => cs
  | _ + 1, [] => []
  | fuel + 1, c :: rest =>
    if pySpace c then ' ' :: collapseWs fuel (rest.dropWhile pySpace)
    else c :: collapseWs fuel rest

/-- Run one fuel-based scan over the whole list. -/
def runPass (step : List Char → Option (List Char)) (cs : List Char) : List Char :=
  scanSub step cs.length cs

/-- Run one boundary-aware scan over the whole list. -/
def runPassW (kws : List (List Char)) (cs : List Char) : List Char :=
  scanSubW (stepWord kws) cs.length none cs

/-- The whole stripping pipeline of `extract_description`, up to and including
the whitespace collapse and `strip()`. -/
def cleanDescription (text : String) : String :=
  let s1 := runPass stepAmountTok text.data
  let s2 := runPass stepNumberTok s1
  let s3 := runPass (stepLits RELDATE_LITS) s2
  let s4 := runPass stepDayMonth s3
  let s5 := STRIP_KEYWORDS.foldl (fun acc kw => runPassW [kw.data] acc) s4
  let s6 := runPassW PREPOSITIONS s5
  String.mk (pyStrip (collapseWs s6.length s6))

/-- `TransactionParser.extract_description`: the cleaned text, then the
category hint if the cleaned text is empty and the hint truthy, then the
placeholder. -/
def extract_description (text : String) (category_hint : Option String) : String :=
  let description := cleanDescription text
  let description :=
    if description = "" then
      match category_hint with
      | some h => if h = "" then description else h
      | none => description
    else description
  if description = "" then "Transaction" else description

/-! ### Date extractor (`parse_date`, transaction_parser.py lines 82-122)

`datetime` values are modelled by the pair (epoch-day number, calendar
year); `.date()` and the ISO rendering of the result keep exactly the day, so
an epoch-day integer is a faithful final value.  The ambient clock
`datetime.now()` becomes an explicit parameter. -/

/-- The ambient clock: epoch-day number of today and the current year. -/
structure Now where
  epochDay : Int
  year : Int
deriving Repr, DecidableEq

/-- `DATE_KEYWORDS`, a Python dict iterated in insertion order
(lines 43-50). -/
def DATE_KEYWORDS : List (List Char × Int) :=
  [("today".data, 0), ("yesterday".data, -1), ("tomorrow".data, 1),
   ("now".data, 0), ("today morning".data, 0), ("last night".data, -1)]

/-- First keyword of the table occurring as a substring, with its offset. -/
def findDateKeyword : List (List Char × Int) → List Char → Option Int
  | [], _ => none
  | (k, off) :: rest, t => if substr k t then some off else findDateKeyword rest t

/-- A parsed calendar date. -/
structure PDate where
  year : Int
  month : Nat
  day : Nat
deriving Repr, DecidableEq

/-- Gregorian leap year. -/
def isLeap (y : Int) : Bool := y % 4 == 0 && (y % 100 != 0 || y % 400 == 0)

/-- Days in a month (month 1-12). -/
def daysInMonth (y : Int) (m : Nat) : Nat :=
  if m = 2 then (if isLeap y then 29 else 28)
  else if m = 4 ∨ m = 6 ∨ m = 9 ∨ m = 11 then 30
  else 31

/-- Epoch-day number of a civil date (days from 1970-01-01, negative before);
the standard days-from-civil computation. -/
def toEpochDay (d : PDate) : Int :=
  let y : Int := if d.month ≤ 2 then d.year - 1 else d.year
  let era : Int := (if 0 ≤ y then y else y - 399) / 400
  let yoe : Int := y - era * 400
  let mp : Int := ((d.month : Int) + 9) % 12
  let doy : Int := (153 * mp + 2) / 5 + (d.day : Int) - 1
  let doe : Int := yoe * 365 + yoe / 4 - yoe / 100 + doy
  era * 146097 + doe - 719468

/-- Full month names with their numbers (`%B`; the text is already
lower-cased).  No name is a prefix of another, so alternation order is
immaterial. -/
def MONTH_FULL : List (List Char × Nat) :=
  [("january".data, 1), ("february".data, 2), ("march".data, 3), ("april".data, 4),
   ("may".data, 5), ("june".data, 6), ("july".data, 7), ("august".data, 8),
   ("september".data, 9), ("october".data, 10), ("november".data, 11),
   ("december".data, 12)]

/-- Abbreviated month names (`%b`). -/
def MONTH_ABBR : List (List Char × Nat) :=
  [("jan".data, 1), ("feb".data, 2), ("mar".data, 3), ("apr".data, 4),
   ("may".data, 5), ("jun".data, 6), ("jul".data, 7), ("aug".data, 8),
   ("sep".data, 9), ("oct".data, 10), ("nov".data, 11), ("dec".data, 12)]

/-- `%d` of `strptime`: the alternation `(3[01]|[12]\d|0[1-9]|[1-9])` in
order.  When a branch taking two digits applies, the one-digit fallback
leaves a digit behind, on which every continuation in the formats used here
fails; so the first applicable branch is the only viable one. -/
def matchDayTok (cs : List Char) : Option (Nat × List Char) :=
  match cs with
  | c1 :: c2 :: r =>
    if c1 == '3' && (c2 == '0' || c2 == '1') then some (30 + digitVal c2, r)
    else if (c1 == '1' || c1 == '2') && c2.isDigit then
      some (10 * digitVal c1 + digitVal c2, r)
    else if c1 == '0' && (c2.isDigit && c2 != '0') then some (digitVal c2, r)
    else if c1.isDigit && c1 != '0' then some (digitVal c1, c2 :: r)
    else none
  | [c1] => if c1.isDigit && c1 != '0' then some (digitVal c1, []) else none
  | [] => none

/-- `%m` of `strptime`: `(1[0-2]|0[1-9]|[1-9])`. -/
def matchMonTok (cs : List Char) : Option (Nat × List Char) :=
  match cs with
  | c1 :: c2 :: r =>
    if c1 == '1' && (c2 == '0' || c2 == '1' || c2 == '2') then
      some (10 + digitVal c2, r)
    else if c1 == '0' && (c2.isDigit && c2 != '0') then some (digitVal c2, r)
    else if c1.isDigit && c1 != '0' then some (digitVal c1, c2 :: r)
    else none
  | [c1] => if c1.isDigit && c1 != '0' then some (digitVal c1, []) else none
  | [] => none

/-- `%Y` of `strptime`: exactly four digits. -/
def matchYearTok (cs : List Char) : Option (Int × List Char) :=
  match cs with
  | a :: b :: c :: d :: r =>
    if a.isDigit && b.isDigit && c.isDigit && d.isDigit then
      some ((digitsVal [a, b, c, d] : Int), r)
    else none
  | _ => none

/-- A whitespace run of length ≥ 1 (whitespace in a `strptime` format becomes
`\s+`). -/
def matchWsTok (cs : List Char) : Option (List Char) :=
  match cs with
  | c :: r => if pySpace c then some (r.dropWhile pySpace) else none
  | [] => none

/-- First month name of the table that is a prefix; returns its number and
the remainder. -/
def matchMonthName (table : List (List Char × Nat)) (cs : List Char) :
    Option (Nat × List Char) :=
  match table with
  | [] => none
  | (nm, v) :: rest =>
    if listStartsWith nm cs then some (v, cs.drop nm.length)
    else matchMonthName rest cs

/-- The `datetime(year, month, day)` constructor validation, as `strptime`
performs at the end (year within range, day within the month). -/
def mkValidDate (y : Int) (m d : Nat) : Option PDate :=
  if 1 ≤ y ∧ y ≤ 9999 ∧ 1 ≤ m ∧ m ≤ 12 ∧ 1 ≤ d ∧ d ≤ daysInMonth y m then
    some ⟨y, m, d⟩
  else none

/-- `strptime(ms, "%d %B")` / `"%d %b"` (day, whitespace, month name; the
whole string must be consumed; default year 1900). -/
def strpDayMonth (table : List (List Char × Nat)) (ms : List Char) : Option PDate :=
  match matchDayTok ms with
  | none => none
  | some (d, r1) =>
    match matchWsTok r1 with
    | none => none
    | some r2 =>
      match matchMonthName table r2 with
      | some (m, []) => mkValidDate 1900 m d
      | _ => none

/-- `strptime(ms, "%B %d")` / `"%b %d"`. -/
def strpMonthDay (table : List (List Char × Nat)) (ms : List Char) : Option PDate :=
  match matchMonthName table ms with
  | none => none
  | some (m, r1) =>
    match matchWsTok r1 with
    | none => none
    | some r2 =>
      match matchDayTok r2 with
      | some (d, []) => mkValidDate 1900 m d
      | _ => none

/-- `strptime(ms, "%Y-%m-%d")`. -/
def strpIso (ms : List Char) : Option PDate :=
  match matchYearTok ms with
  | none => none
  | some (y, r1) =>
    match r1 with
    | '-' :: r2 =>
      match matchMonTok r2 with
      | none => none
      | some (m, r3) =>
        match r3 with
        | '-' :: r4 =>
          match matchDayTok r4 with
          | some (d, []) => mkValidDate y m d
          | _ => none
        | _ => none
    | _ => none

/-- `strptime(ms, "%d/%m/%Y")`. -/
def strpDmy (ms : List Char) : Option PDate :=
  match matchDayTok ms with
  | none => none
  | some (d, r1) =>
    match r1 with
    | '/' :: r2 =>
      match matchMonTok r2 with
      | none => none
      | some (m, r3) =>
        match r3 with
        | '/' :: r4 =>
          match matchYearTok r4 with
          | some (y, []) => mkValidDate y m d
          | _ => none
        | _ => none
    | _ => none

/-- The `strptime` format loop over
`["%d %B", "%d %b", "%B %d", "%b %d", "%Y-%m-%d", "%d/%m/%Y"]`, followed by
the year-1900 → current-year substitution. -/
def tryFormats (nowYear : Int) (ms : List Char) : Option PDate :=
  let first :=
    match strpDayMonth MONTH_FULL ms with
    | some dt => some dt
    | none =>
      match strpDayMonth MONTH_ABBR ms with
      | some dt => some dt
      | none =>
        match strpMonthDay MONTH_FULL ms with
        | some dt => some dt
        | none =>
          match strpMonthDay MONTH_ABBR ms with
          | some dt => some dt
          | none =>
            match strpIso ms with
            | some dt => some dt
            | none => strpDmy ms
  first.map (fun dt => if dt.year = 1900 then { dt with year := nowYear } else dt)

/-- `(\d{1,2})\s+([a-z]{3,9})`. -/
def dateRe1 : RE :=
  seqAll [.cls Char.isDigit, clsUpTo Char.isDigit 1, .plusG pySpace,
    .cls isLowerAZ, .cls isLowerAZ, .cls isLowerAZ, clsUpTo isLowerAZ 6]

/-- `([a-z]{3,9})\s+(\d{1,2})`. -/
def dateRe2 : RE :=
  seqAll [.cls isLowerAZ, .cls isLowerAZ, .cls isLowerAZ, clsUpTo isLowerAZ 6,
    .plusG pySpace, .cls Char.isDigit, clsUpTo Char.isDigit 1]

/-- `(\d{4})-(\d{1,2})-(\d{1,2})`. -/
def dateRe3 : RE :=
  seqAll [.cls Char.isDigit, .cls Char.isDigit, .cls Char.isDigit, .cls Char.isDigit,
    litS "-", .cls Char.isDigit, clsUpTo Char.isDigit 1,
    litS "-", .cls Char.isDigit, clsUpTo Char.isDigit 1]

/-- `(\d{1,2})/(\d{1,2})/(\d{4})`. -/
def dateRe4 : RE :=
  seqAll [.cls Char.isDigit, clsUpTo Char.isDigit 1, litS "/",
    .cls Char.isDigit, clsUpTo Char.isDigit 1, litS "/",
    .cls Char.isDigit, .cls Char.isDigit, .cls Char.isDigit, .cls Char.isDigit]

/-- The absolute-date pattern loop: for the first pattern whose search
matches, try the formats on the whole match (`match.group(0)`); if all
formats fail, continue with the next pattern. -/
def searchAbsoluteDates (nowYear : Int) : List RE → List Char → Option Int
  | [], _ => none
  | r :: rs, t =>
    match reSearch r t with
    | some (g0, _) =>
      match tryFormats nowYear g0 with
      | some dt => some (toEpochDay dt)
      | none => searchAbsoluteDates nowYear rs t
    | none => searchAbsoluteDates nowYear rs t

/-- `TransactionParser.parse_date`: keyword table first (first hit wins,
returning now + offset), then the four absolute-date grammars.  The result is
the epoch-day number of the `.date()` of the returned datetime. -/
def parse_date (now : Now) (text : String) : Option Int :=
  let t := pyLower text.data
  match findDateKeyword DATE_KEYWORDS t with
  | some off => some (now.epochDay + off)
  | none => searchAbsoluteDates now.year [dateRe1, dateRe2, dateRe3, dateRe4] t

/-! ### Record assembler (`parse`, transaction_parser.py lines 198-242) -/

/-- The output record.  `transaction_date` is the epoch-day number of the
`.date()` rendered in the source as an ISO string. -/
structure ParsedTransaction where
  action : String
  original_input : String
  amount : Option ℚ
  category_hint : Option String
  type : String
  description : String
  transaction_date : Option Int
  payment_method : Option String
  confidence : ℚ
  clarification_needed : Bool
deriving Repr, DecidableEq

/-- Python truthiness of the optional float `amount` (`0.0` and `None` are
falsy). -/
def truthyAmount : Option ℚ → Bool
  | none => false
  | some a => a != 0

/-- Python truthiness of the optional string `category_hint` (empty string
and `None` are falsy). -/
def truthyHint : Option String → Bool
  | none => false
  | some h => h != ""

/-- The local variable `confidence` of `parse` before the clamp: 0.4 for a
truthy amount, 0.3 for a truthy hint, 0.2 for a date, 0.1 for a
non-placeholder description. -/
def confSum (amount : Option ℚ) (category_hint : Option String)
    (transaction_date : Option Int) (description : String) : ℚ :=
  (if truthyAmount amount then 2/5 else 0) +
  (if truthyHint category_hint then 3/10 else 0) +
  (if transaction_date.isSome then 1/5 else 0) +
  (if description != "" && description != "Transaction" then 1/10 else 0)

/-- `TransactionParser.parse`: the five extractors in sequence, the
confidence sum, the clamp, and the clarification flag (which compares the
unclamped sum, as the source does). -/
def parse (now : Now) (text : String) : ParsedTransaction :=
  let amount := parse_amount text
  let transaction_date := parse_date now text
  let transaction_type := detect_type text
  let category_hint := extract_category_hint text
  let description := extract_description text category_hint
  let confidence : ℚ := confSum amount category_hint transaction_date description
  { action := "CREATE"
    original_input := text
    amount := amount
    category_hint := category_hint
    type := transaction_type
    description := description
    transaction_date := transaction_date
    payment_method := none
    confidence := min confidence 1
    clarification_needed :=
      if truthyAmount amount then decide (confidence < 1/2) else true }

/-! ### Batch processing

`llm_service.parse_transaction_batch` (llm_service.py lines 87-101) and the
`/mcp/batch-process` route (main.py lines 240-266) both run the same loop
shape: `results = []; for x in inputs: results.append(f(x))`.  The per-item
processor there is an external collaborator (the LLM strategy, or the
HTTP-level `process_transaction`); the spec's batch contract applies the core
`parse` to each item, so the loop is embedded with the item parser as a
parameter and instantiated with `parse`. -/

/-- The batch accumulation loop, verbatim from `parse_transaction_batch`. -/
def parse_transaction_batch (f : String → ParsedTransaction) (inputs : List String) :
    List ParsedTransaction :=
  inputs.foldl (fun results text => results ++ [f text]) []

/-- The spec-level `parse_batch`: the batch loop with the core parser. -/
def parse_batch (now : Now) (inputs : List String) : List ParsedTransaction :=
  parse_transaction_batch (parse now) inputs

/-! ### Specification-side predicates used in the claim statements -/

/-- The fractional-token condition of a number occurrence: either there is no
fractional token and the following text does not continue the number (no
further `[0-9,]` character and no `.dd` that the greedy matcher would absorb),
or the fractional token is a dot with exactly two digits. -/
def FracTokOk (frac post : List Char) : Prop :=
  (frac = [] ∧ (∀ c, post.head? = some c → isDigitComma c = false) ∧
    ¬ ∃ a b r, post = '.' :: a :: b :: r ∧ a.isDigit = true ∧ b.isDigit = true) ∨
  (∃ a b, frac = ['.', a, b] ∧ a.isDigit = true ∧ b.isDigit = true)

/-- The input `s` contains, after prefix `pre`, a currency glyph `g`
immediately followed by optional whitespace `ws` and a maximal number in the
numeric grammar (integer token `ds`, fractional token `frac`), with `post`
following. -/
def GlyphNumAt (s : String) (pre : List Char) (g : Char)
    (ws ds frac post : List Char) : Prop :=
  s.data = pre ++ g :: (ws ++ ds ++ frac ++ post) ∧
  g ∈ glyphs ∧
  (∀ c ∈ ws, pySpace c = true) ∧
  ds ≠ [] ∧ (∀ c ∈ ds, isDigitComma c = true) ∧
  FracTokOk frac post

/-! ### Helper lemmas -/

theorem listStartsWith_iff (n : List Char) : ∀ h : List Char,
    listStartsWith n h = true ↔ ∃ t, h = n ++ t := by
  induction n with
  | nil => intro h; simp [listStartsWith]
  | cons a as ih =>
    intro h
    cases h with
    | nil => simp [listStartsWith]
    | cons b bs =>
      simp only [listStartsWith, Bool.and_eq_true, beq_iff_eq, ih]
      constructor
      · rintro ⟨rfl, t, rfl⟩; exact ⟨t, rfl⟩
      · rintro ⟨t, ht⟩
        injection ht with h1 h2
        exact ⟨h1.symm, t, h2⟩

theorem substr_iff (n : List Char) : ∀ h : List Char,
    substr n h = true ↔ ∃ p q, p ++ n ++ q = h := by
  intro h
  induction h with
  | nil =>
    simp only [substr, List.isEmpty_iff]
    constructor
    · rintro rfl; exact ⟨[], [], rfl⟩
    · rintro ⟨p, q, hp⟩
      rcases List.append_eq_nil.mp hp with ⟨hpn, -⟩
      exact (List.append_eq_nil.mp hpn).2
  | cons c t ih =>
    simp only [substr, Bool.or_eq_true, listStartsWith_iff, ih]
    constructor
    · rintro (⟨r, hr⟩ | ⟨p, q, rfl⟩)
      · exact ⟨[], r, by simp [hr]⟩
      · exact ⟨c :: p, q, rfl⟩
    · rintro ⟨p, q, hp⟩
      cases p with
      | nil => exact Or.inl ⟨q, by simpa using hp.symm⟩
      | cons x xs =>
        right
        injection hp with h1 h2
        exact ⟨xs, q, h2⟩

theorem attemptPattern_pos (o : Option (List Char)) (v : ℚ)
    (h : attemptPattern o = some v) : 0 < v := by
  unfold attemptPattern at h
  split at h
  · exact absurd h (by simp)
  · split at h
    · exact absurd h (by simp)
    · split at h
      · cases h; assumption
      · exact absurd h (by simp)

/-- `parse_amount` only ever returns strictly positive values (every pattern
body checks `amount > 0` before returning). -/
theorem parse_amount_pos (s : String) (v : ℚ) (h : parse_amount s = some v) :
    0 < v := by
  unfold parse_amount at h
  dsimp only at h
  split at h
  · next heq => cases h; exact attemptPattern_pos _ _ heq
  · split at h
    · next heq => cases h; exact attemptPattern_pos _ _ heq
    · split at h
      · next heq => cases h; exact attemptPattern_pos _ _ heq
      · exact attemptPattern_pos _ _ h

/-- `extract_category_hint` only ever returns hints longer than one character
(the `len(hint) > 1` check). -/
theorem firstHint_length (t : List Char) : ∀ (ps : List RE) (h : String),
    firstHint ps t = some h → 1 < h.length := by
  intro ps
  induction ps with
  | nil => intro h hh; simp [firstHint] at hh
  | cons p ps ih =>
    intro h hh
    unfold firstHint at hh
    split at hh
    · next cap heq =>
      dsimp only at hh
      split at hh
      · next hcond =>
        cases hh
        exact hcond.2
      · exact ih h hh
    · exact ih h hh

theorem extract_category_hint_length (s : String) (h : String)
    (hh : extract_category_hint s = some h) : 1 < h.length :=
  firstHint_length _ _ _ hh

theorem extract_category_hint_ne_empty (s : String) (h : String)
    (hh : extract_category_hint s = some h) : h ≠ "" := by
  intro he
  subst he
  exact absurd (extract_category_hint_length s "" hh) (by decide)

/-- The description is never the empty string. -/
theorem extract_description_ne_empty (t : String) (hint : Option String) :
    extract_description t hint ≠ "" := by
  unfold extract_description
  dsimp only
  by_cases h1 : cleanDescription t = ""
  · cases hint with
    | none => simp [h1]
    | some h =>
      by_cases h2 : h = ""
      · simp [h1, h2]
      · simp [h1, h2]
  · simp [h1]

/-! ### Field lemmas for `parse` -/

theorem parse_amount_field (now : Now) (s : String) :
    (parse now s).amount = parse_amount s := rfl

theorem parse_hint_field (now : Now) (s : String) :
    (parse now s).category_hint = extract_category_hint s := rfl

theorem parse_date_field (now : Now) (s : String) :
    (parse now s).transaction_date = parse_date now s := rfl

theorem parse_description_field (now : Now) (s : String) :
    (parse now s).description = extract_description s (extract_category_hint s) := by
  unfold parse
  dsimp only

theorem parse_confidence_field (now : Now) (s : String) :
    (parse now s).confidence =
      min (confSum (parse_amount s) (extract_category_hint s) (parse_date now s)
        (extract_description s (extract_category_hint s))) 1 := by
  unfold parse
  dsimp only

theorem parse_clarification_field (now : Now) (s : String) :
    (parse now s).clarification_needed =
      (if truthyAmount (parse_amount s) then
        decide (confSum (parse_amount s) (extract_category_hint s) (parse_date now s)
          (extract_description s (extract_category_hint s)) < 1/2)
      else true) := by
  unfold parse
  dsimp only

/-! ### Claim theorems -/

/-- Claim C4: `parse` is total (it is a total Lean function; every extractor
degrades to an absent or default value), and on the empty string it returns
an absent amount, a raised clarification flag, and the placeholder
description. -/
theorem parse_total_empty_input (now : Now) :
    (parse now "").amount = none ∧
    (parse now "").clarification_needed = true ∧
    (parse now "").description = "Transaction" :=
  ⟨rfl, rfl, rfl⟩

/-- Claim C5: the type classifier always returns "INCOME" or "EXPENSE"; it
returns "INCOME" exactly when some income keyword occurs case-insensitively
as a contiguous substring, and returns "EXPENSE" whenever no income keyword
occurs (in particular when an expense keyword occurs, and when no keyword at
all occurs). -/
theorem detect_type_spec (s : String) :
    (detect_type s = "INCOME" ∨ detect_type s = "EXPENSE") ∧
    (detect_type s = "INCOME" ↔
      ∃ k ∈ INCOME_KEYWORDS, ∃ p q, p ++ k.data ++ q = pyLower s.data) ∧
    (¬(∃ k ∈ INCOME_KEYWORDS, ∃ p q, p ++ k.data ++ q = pyLower s.data) →
      detect_type s = "EXPENSE") := by
  have hkey : ∀ kws : List String,
      (kws.any fun k => substr k.data (pyLower s.data)) = true ↔
        ∃ k ∈ kws, ∃ p q, p ++ k.data ++ q = pyLower s.data := by
    intro kws
    simp only [List.any_eq_true, substr_iff]
  unfold detect_type
  dsimp only
  by_cases hI : (INCOME_KEYWORDS.any fun k => substr k.data (pyLower s.data)) = true
  · rw [if_pos hI]
    exact ⟨Or.inl rfl, ⟨fun _ => (hkey _).mp hI, fun _ => rfl⟩,
      fun hn => absurd ((hkey _).mp hI) hn⟩
  · rw [if_neg hI, ite_self]
    exact ⟨Or.inr rfl, ⟨fun h => absurd h (by decide),
      fun hex => absurd ((hkey _).mpr hex) hI⟩, fun _ => rfl⟩

/-- Claim C8: the record preserves the input verbatim in `original_input`,
and re-parsing that field with the clock anchored to the same instant yields
the same amount, type and category hint. -/
theorem parse_reparse_spec (now : Now) (t : String) :
    (parse now t).original_input = t ∧
    (parse now ((parse now t).original_input)).amount = (parse now t).amount ∧
    (parse now ((parse now t).original_input)).type = (parse now t).type ∧
    (parse now ((parse now t).original_input)).category_hint =
      (parse now t).category_hint :=
  ⟨rfl, rfl, rfl, rfl⟩

theorem batch_foldl_eq_map (f : String → ParsedTransaction) :
    ∀ (xs : List String) (acc : List ParsedTransaction),
      xs.foldl (fun results text => results ++ [f text]) acc = acc ++ xs.map f := by
  intro xs
  induction xs with
  | nil => intro acc; simp
  | cons x xs ih =>
    intro acc
    simp only [List.foldl_cons, List.map_cons, ih, List.append_assoc,
      List.singleton_append]

theorem parse_batch_eq_map (now : Now) (xs : List String) :
    parse_batch now xs = xs.map (parse now) := by
  unfold parse_batch parse_transaction_batch
  simpa using batch_foldl_eq_map (parse now) xs []

/-- Claim C7: batch parsing preserves length and order, the element at every
index is the independent single-input parse of the input at that index, and
in particular the middle element of a three-element batch is the parse of the
middle input. -/
theorem parse_batch_spec (now : Now) (xs : List String) :
    (parse_batch now xs).length = xs.length ∧
    (∀ i : ℕ, (parse_batch now xs)[i]? = xs[i]?.map (parse now)) ∧
    (∀ a b c : String, (parse_batch now [a, b, c])[1]? = some (parse now b)) := by
  refine ⟨?_, ?_, ?_⟩
  · rw [parse_batch_eq_map]; exact List.length_map _ _
  · intro i; rw [parse_batch_eq_map]; exact List.getElem?_map _ _ _
  · intro a b c; rw [parse_batch_eq_map]; rfl

/-- Claim C1: `clarification_needed` is true whenever the amount is absent;
when the amount is present it is true exactly when the confidence is
strictly below 0.5.  (The source compares the un-clamped sum; the clamp at
1.0 cannot move a value across 0.5, so the two readings agree, as the proof
shows.) -/
theorem clarification_spec (now : Now) (s : String) :
    ((parse now s).amount = none → (parse now s).clarification_needed = true) ∧
    (∀ a : ℚ, (parse now s).amount = some a →
      ((parse now s).clarification_needed = true ↔
        (parse now s).confidence < 1/2)) := by
  constructor
  · intro h
    have hA : parse_amount s = none := by rw [← parse_amount_field now s]; exact h
    rw [parse_clarification_field, hA]
    rfl
  · intro a ha
    have hA : parse_amount s = some a := by rw [← parse_amount_field now s]; exact ha
    have hpos : 0 < a := parse_amount_pos s a hA
    have htr : truthyAmount (parse_amount s) = true := by
      rw [hA]
      simpa [truthyAmount] using hpos.ne'
    rw [parse_clarification_field, parse_confidence_field, htr]
    simp only [if_true, decide_eq_true_eq]
    constructor
    · intro hc
      exact min_lt_iff.mpr (Or.inl hc)
    · intro hm
      rcases min_lt_iff.mp hm with h | h
      · exact h
      · exact absurd h (by norm_num)

/-- Claim C3: the confidence equals the weighted sum 0.4·[amount present] +
0.3·[hint present] + 0.2·[date found] + 0.1·[description differs from the
placeholder], clamped to at most 1; in particular it lies in [0, 1]. -/
theorem confidence_spec (now : Now) (s : String) :
    (parse now s).confidence =
      min ((if (parse now s).amount.isSome then (2 : ℚ)/5 else 0) +
           (if (parse now s).category_hint.isSome then (3 : ℚ)/10 else 0) +
           (if (parse now s).transaction_date.isSome then (1 : ℚ)/5 else 0) +
           (if (parse now s).description != "Transaction" then (1 : ℚ)/10 else 0)) 1 ∧
    0 ≤ (parse now s).confidence ∧ (parse now s).confidence ≤ 1 := by
  have hA : truthyAmount (parse_amount s) = (parse_amount s).isSome := by
    cases h : parse_amount s with
    | none => rfl
    | some a =>
      simpa [truthyAmount] using (parse_amount_pos s a h).ne'
  have hH : truthyHint (extract_category_hint s) = (extract_category_hint s).isSome := by
    cases h : extract_category_hint s with
    | none => rfl
    | some x =>
      simpa [truthyHint] using extract_category_hint_ne_empty s x h
  have hd1 : (extract_description s (extract_category_hint s) != "") = true := by
    simpa [bne_iff_ne] using extract_description_ne_empty s (extract_category_hint s)
  refine ⟨?_, ?_, ?_⟩
  · rw [parse_confidence_field, parse_amount_field, parse_hint_field, parse_date_field,
      parse_description_field]
    unfold confSum
    rw [hA, hH, hd1, Bool.true_and]
  · rw [parse_confidence_field]
    refine le_min ?_ zero_le_one
    unfold confSum
    split_ifs <;> norm_num
  · rw [parse_confidence_field]
    exact min_le_right _ _

/-- Claim C9: the description is never empty; when the stripping pipeline
leaves nothing and a category hint exists the description is the hint, and
when the pipeline leaves nothing and there is no hint it is the placeholder
"Transaction". -/
theorem description_spec (now : Now) (s : String) :
    (parse now s).description ≠ "" ∧
    (cleanDescription s = "" → ∀ h, extract_category_hint s = some h →
      (parse now s).description = h) ∧
    (cleanDescription s = "" → extract_category_hint s = none →
      (parse now s).description = "Transaction") := by
  refine ⟨parse_description_field now s ▸ extract_description_ne_empty s _, ?_, ?_⟩
  · intro hc h hh
    rw [parse_description_field, hh]
    have hne := extract_category_hint_ne_empty s h hh
    unfold extract_description
    dsimp only
    simp [hc, hne]
  · intro hc hh
    rw [parse_description_field, hh]
    unfold extract_description
    dsimp only
    simp [hc]

/-- Witness for C1 at concrete inputs: an amount-free input raises the flag,
and for "₹9" (confidence 0.5 not reached) the flag matches the confidence
comparison. -/
theorem clarification_spec_witness :
    (parse ⟨0, 2026⟩ "").clarification_needed = true ∧
    ((parse ⟨0, 2026⟩ "₹9").clarification_needed = true ↔
      (parse ⟨0, 2026⟩ "₹9").confidence < 1/2) :=
  ⟨(clarification_spec ⟨0, 2026⟩ "").1 (by decide),
   (clarification_spec ⟨0, 2026⟩ "₹9").2 9 (by decide)⟩

/-- Witness for C9 at a concrete input: cleaning "for eating" strips
everything (keyword, preposition), and the hint "eating" becomes the
description. -/
theorem description_spec_witness :
    (parse ⟨0, 2026⟩ "for eating").description = "eating" :=
  (description_spec ⟨0, 2026⟩ "for eating").2.1 (by decide) "eating" (by decide)

theorem findDateKeyword_first (t : List Char) :
    ∀ (pre rest : List (List Char × Int)) (k : List Char) (off : Int),
      (∀ e ∈ pre, substr e.1 t = false) → substr k t = true →
      findDateKeyword (pre ++ (k, off) :: rest) t = some off := by
  intro pre
  induction pre with
  | nil =>
    intro rest k off _ hk
    simp [findDateKeyword, hk]
  | cons e pre ih =>
    intro rest k off hpre hk
    have he : substr e.1 t = false := hpre e (by simp)
    rcases e with ⟨ke, offe⟩
    simp only [List.cons_append, findDateKeyword, he]
    rw [if_neg (by simp [he])]
    exact ih rest k off (fun e' he' => hpre e' (by simp [he'])) hk

/-- Claim C6: if the lower-cased input contains an entry of the relative-day
keyword table as a plain substring (word boundaries are not required, so
"now" inside "know" counts), then `parse_date` returns now plus the offset of
the first matching entry in table order, and the absolute-date grammars are
not consulted (the result is fully determined by the keyword hit). -/
theorem parse_date_keyword_spec (now : Now) (s : String)
    (pre rest : List (List Char × Int)) (k : List Char) (off : Int)
    (htab : DATE_KEYWORDS = pre ++ (k, off) :: rest)
    (hpre : ∀ e ∈ pre, ¬ ∃ p q, p ++ e.1 ++ q = pyLower s.data)
    (hk : ∃ p q, p ++ k ++ q = pyLower s.data) :
    parse_date now s = some (now.epochDay + off) := by
  unfold parse_date
  dsimp only
  rw [htab, findDateKeyword_first (pyLower s.data) pre rest k off
    (fun e he => by
      rw [Bool.eq_false_iff]
      intro hsub
      exact hpre e he ((substr_iff e.1 (pyLower s.data)).mp hsub))
    ((substr_iff k (pyLower s.data)).mpr hk)]

/-- Witness for C6 at a concrete input: "I know" contains "now" inside
"know"; the earlier table entries do not occur, so the result is today. -/
theorem parse_date_keyword_witness :
    parse_date ⟨20000, 2026⟩ "I know" = some 20000 := by
  have h := parse_date_keyword_spec ⟨20000, 2026⟩ "I know"
    [("today".data, 0), ("yesterday".data, -1), ("tomorrow".data, 1)]
    [("today morning".data, 0), ("last night".data, -1)] "now".data 0
    rfl
    (by
      intro e he hex
      have hs := (substr_iff e.1 (pyLower "I know".data)).mpr hex
      fin_cases he <;> exact absurd hs (by decide))
    ⟨['i', ' ', 'k'], [], by decide⟩
  simpa using h

/-! ### Lemmas about lower-casing the character classes of pattern 1 -/

theorem pyLowerChar_glyph {g : Char} (h : g ∈ glyphs) : pyLowerChar g = g := by
  fin_cases h <;> rfl

theorem pyLowerChar_not_glyph {c : Char} (h : c ∉ glyphs) : pyLowerChar c ∉ glyphs := by
  unfold pyLowerChar
  split <;> first | exact h | decide

theorem pyLowerChar_space {c : Char} (h : pySpace c = true) : pyLowerChar c = c := by
  unfold pyLowerChar
  split <;> first | rfl | exact absurd h (by decide)

theorem pyLowerChar_digitComma {c : Char} (h : isDigitComma c = true) :
    pyLowerChar c = c := by
  unfold pyLowerChar
  split <;> first | rfl | exact absurd h (by decide)

theorem isDigitComma_pyLowerChar (c : Char) :
    isDigitComma (pyLowerChar c) = isDigitComma c := by
  unfold pyLowerChar
  split <;> rfl

theorem isDigit_pyLowerChar (c : Char) : (pyLowerChar c).isDigit = c.isDigit := by
  unfold pyLowerChar
  split <;> rfl

theorem pyLowerChar_eq_dot {c : Char} (h : pyLowerChar c = '.') : c = '.' := by
  unfold pyLowerChar at h
  split at h <;> first | exact h | exact absurd h (by decide)

theorem digitComma_not_space {c : Char} (h : isDigitComma c = true) :
    pySpace c = false := by
  rw [Bool.eq_false_iff]
  intro hsp
  simp only [pySpace, Bool.or_eq_true, beq_iff_eq] at hsp
  obtain ((((h1 | h1) | h1) | h1) | h1) | h1 := hsp <;> subst h1 <;>
    exact absurd h (by decide)

theorem pyLower_fixed {l : List Char} (h : ∀ c ∈ l, pyLowerChar c = c) :
    pyLower l = l := by
  unfold pyLower
  induction l with
  | nil => rfl
  | cons a t ih =>
    rw [List.map_cons, h a (by simp), ih (fun c hc => h c (by simp [hc]))]

/-! ### takeWhile / dropWhile decomposition lemmas -/

theorem dropWhile_append_of_all {p : Char → Bool} {l1 l2 : List Char}
    (h : ∀ c ∈ l1, p c = true) :
    (l1 ++ l2).dropWhile p = l2.dropWhile p := by
  induction l1 with
  | nil => rfl
  | cons a t ih =>
    rw [List.cons_append, List.dropWhile_cons, h a (by simp)]
    exact ih (fun c hc => h c (by simp [hc]))

theorem dropWhile_eq_self_of_head {p : Char → Bool} {l : List Char}
    (h : ∀ c, l.head? = some c → p c = false) :
    l.dropWhile p = l := by
  cases l with
  | nil => rfl
  | cons a t => rw [List.dropWhile_cons, h a rfl]; rfl

theorem takeWhile_append_of_all {p : Char → Bool} {l1 l2 : List Char}
    (h1 : ∀ c ∈ l1, p c = true) (h2 : ∀ c, l2.head? = some c → p c = false) :
    (l1 ++ l2).takeWhile p = l1 := by
  induction l1 with
  | nil =>
    cases l2 with
    | nil => rfl
    | cons a t => simp [List.takeWhile_cons, h2 a rfl]
  | cons a t ih =>
    rw [List.cons_append, List.takeWhile_cons, h1 a (by simp)]
    simp [ih (fun c hc => h1 c (by simp [hc]))]

/-! ### The leftmost pattern-1 match on a decomposed input -/

theorem searchPat1_append {pre rest : List Char} (h : ∀ c ∈ pre, c ∉ glyphs) :
    searchPat1 (pre ++ rest) = searchPat1 rest := by
  induction pre with
  | nil => rfl
  | cons a t ih =>
    have ha : a ∉ glyphs := h a (by simp)
    rw [List.cons_append]
    show (match matchPat1At (a :: (t ++ rest)) with
      | some g => some g
      | none => searchPat1 (t ++ rest)) = searchPat1 rest
    rw [show matchPat1At (a :: (t ++ rest)) = none by simp [matchPat1At, ha]]
    exact ih (fun c hc => h c (by simp [hc]))

theorem matchNum_decomp {ds frac post : List Char}
    (hds0 : ds ≠ []) (hds : ∀ c ∈ ds, isDigitComma c = true)
    (hfr : FracTokOk frac post) :
    matchNum (ds ++ (frac ++ post)) = some (ds ++ frac) := by
  have hstop : ∀ c, (frac ++ post).head? = some c → isDigitComma c = false := by
    rcases hfr with ⟨rfl, hhead, -⟩ | ⟨a, b, rfl, -, -⟩
    · simpa using hhead
    · intro c hc
      simp only [List.cons_append, List.head?_cons] at hc
      cases hc
      decide
  have ht : (ds ++ (frac ++ post)).takeWhile isDigitComma = ds :=
    takeWhile_append_of_all hds hstop
  unfold matchNum
  dsimp only
  rw [ht]
  rw [if_neg (by simpa [List.isEmpty_iff] using hds0)]
  rw [show (ds ++ (frac ++ post)).drop ds.length = frac ++ post from
    List.drop_left ds (frac ++ post)]
  rcases hfr with ⟨rfl, hhead, hnofrac⟩ | ⟨a, b, rfl, ha, hb⟩
  · rw [List.nil_append]
    split
    · rename_i a b r
      have hne : (a.isDigit && b.isDigit) = false := by
        rw [Bool.eq_false_iff]
        intro hab
        obtain ⟨h1, h2⟩ : a.isDigit = true ∧ b.isDigit = true := by simpa using hab
        exact hnofrac ⟨a, b, r, rfl, h1, h2⟩
      simp [hne]
    · simp
  · simp [ha, hb]

theorem matchPat1At_decomp {g : Char} {ws ds frac post : List Char}
    (hg : g ∈ glyphs) (hws : ∀ c ∈ ws, pySpace c = true)
    (hds0 : ds ≠ []) (hds : ∀ c ∈ ds, isDigitComma c = true)
    (hfr : FracTokOk frac post) :
    matchPat1At (g :: (ws ++ (ds ++ (frac ++ post)))) = some (ds ++ frac) := by
  have hstop2 : ∀ c0, (ds ++ (frac ++ post)).head? = some c0 → pySpace c0 = false := by
    intro c0 hc0
    cases ds with
    | nil => exact absurd rfl hds0
    | cons d t =>
      rw [List.cons_append, List.head?_cons] at hc0
      injection hc0 with hdc
      subst hdc
      exact digitComma_not_space (hds d (by simp))
  simp only [matchPat1At, if_pos hg]
  rw [dropWhile_append_of_all hws, dropWhile_eq_self_of_head hstop2]
  exact matchNum_decomp hds0 hds hfr

theorem searchPat1_decomp {pre : List Char} {g : Char} {ws ds frac post : List Char}
    (hpre : ∀ c ∈ pre, c ∉ glyphs) (hg : g ∈ glyphs)
    (hws : ∀ c ∈ ws, pySpace c = true)
    (hds0 : ds ≠ []) (hds : ∀ c ∈ ds, isDigitComma c = true)
    (hfr : FracTokOk frac post) :
    searchPat1 (pre ++ g :: (ws ++ (ds ++ (frac ++ post)))) = some (ds ++ frac) := by
  rw [searchPat1_append hpre]
  show (match matchPat1At (g :: (ws ++ (ds ++ (frac ++ post)))) with
    | some g => some g
    | none => searchPat1 (ws ++ (ds ++ (frac ++ post)))) = some (ds ++ frac)
  rw [matchPat1At_decomp hg hws hds0 hds hfr]

theorem pyLower_append (l1 l2 : List Char) :
    pyLower (l1 ++ l2) = pyLower l1 ++ pyLower l2 :=
  List.map_append _ _ _

theorem pyLower_cons (c : Char) (l : List Char) :
    pyLower (c :: l) = pyLowerChar c :: pyLower l := rfl

/-- The comma-stripped token converts exactly to its denoted value. -/
theorem parseQ_token {ds frac : List Char}
    (hds : ∀ c ∈ ds, isDigitComma c = true)
    (hshape : frac = [] ∨ ∃ a b, frac = ['.', a, b] ∧ a.isDigit = true ∧ b.isDigit = true)
    (hne : ds.filter (fun c => c != ',') ≠ [] ∨ frac ≠ []) :
    parseQ ((ds ++ frac).filter (fun c => c != ',')) = some (numValue ds frac) := by
  have hds'dig : ∀ c ∈ ds.filter (fun c => c != ','), c.isDigit = true := by
    intro c hc
    obtain ⟨hc1, hc2⟩ := List.mem_filter.mp hc
    have hdc := hds c hc1
    rcases (by simpa [isDigitComma] using hdc : c.isDigit = true ∨ c = ',') with h | h
    · exact h
    · exact absurd h (by simpa using hc2)
  have hfracfix : frac.filter (fun c => c != ',') = frac := by
    rcases hshape with rfl | ⟨a, b, rfl, ha, hb⟩
    · rfl
    · have hA : a ≠ ',' := fun h => by subst h; exact absurd ha (by decide)
      have hB : b ≠ ',' := fun h => by subst h; exact absurd hb (by decide)
      simp [hA, hB]
  rw [List.filter_append, hfracfix]
  have ht : (ds.filter (fun c => c != ',') ++ frac).takeWhile Char.isDigit =
      ds.filter (fun c => c != ',') := by
    apply takeWhile_append_of_all hds'dig
    rcases hshape with rfl | ⟨a, b, rfl, ha, hb⟩
    · intro c hc; simp at hc
    · intro c hc
      rw [List.head?_cons] at hc
      cases hc
      decide
  unfold parseQ
  dsimp only
  rw [ht, List.drop_left]
  rcases hshape with rfl | ⟨a, b, rfl, ha, hb⟩
  · have hne' : ds.filter (fun c => c != ',') ≠ [] := by
      rcases hne with h | h
      · exact h
      · exact absurd rfl h
    rw [if_neg (by simpa [List.isEmpty_iff] using hne')]
    simp [numValue]
  · simp only [List.isEmpty_cons]
    rw [if_neg (by decide)]
    rw [if_pos (by simp [ha, hb])]
    simp [numValue]
    norm_num

/-- Core lemma for claims C2 and C10: when the text before the occurrence
contains no currency glyph (so the occurrence is the leftmost pattern-1
match), `parse_amount` returns exactly the value of the matched number,
provided that value is positive (pattern 1 then short-circuits the loop). -/
theorem parse_amount_first_glyph_core (s : String) (pre : List Char) (g : Char)
    (ws ds frac post : List Char)
    (hocc : GlyphNumAt s pre g ws ds frac post)
    (hpre : ∀ c ∈ pre, c ∉ glyphs)
    (hne : ds.filter (fun c => c != ',') ≠ [] ∨ frac ≠ [])
    (hpos : 0 < numValue ds frac) :
    parse_amount s = some (numValue ds frac) := by
  obtain ⟨hs, hg, hws, hds0, hds, hfr⟩ := hocc
  have hws' : ∀ c ∈ ws, pyLowerChar c = c := fun c hc => pyLowerChar_space (hws c hc)
  have hds' : ∀ c ∈ ds, pyLowerChar c = c := fun c hc => pyLowerChar_digitComma (hds c hc)
  have hshape : frac = [] ∨ ∃ a b, frac = ['.', a, b] ∧ a.isDigit = true ∧ b.isDigit = true := by
    rcases hfr with ⟨h, -, -⟩ | h
    · exact Or.inl h
    · exact Or.inr h
  have hfrac' : ∀ c ∈ frac, pyLowerChar c = c := by
    rcases hshape with rfl | ⟨a, b, rfl, ha, hb⟩
    · intro c hc; simp at hc
    · intro c hc
      have : c = '.' ∨ c = a ∨ c = b := by simpa using hc
      rcases this with rfl | rfl | rfl
      · rfl
      · exact pyLowerChar_digitComma (by simp [isDigitComma, ha])
      · exact pyLowerChar_digitComma (by simp [isDigitComma, hb])
  have hlow : pyLower s.data = pyLower pre ++ g :: (ws ++ (ds ++ (frac ++ pyLower post))) := by
    rw [hs, pyLower_append, pyLower_cons, pyLowerChar_glyph hg,
      pyLower_append, pyLower_append, pyLower_append,
      pyLower_fixed hws', pyLower_fixed hds', pyLower_fixed hfrac']
    simp [List.append_assoc]
  have hpre2 : ∀ c ∈ pyLower pre, c ∉ glyphs := by
    intro c hc
    obtain ⟨c0, hc0, rfl⟩ := List.mem_map.mp (by simpa [pyLower] using hc)
    exact pyLowerChar_not_glyph (hpre c0 hc0)
  have hfr2 : FracTokOk frac (pyLower post) := by
    rcases hfr with ⟨rfl, hhead, hnf⟩ | hr
    · left
      refine ⟨rfl, ?_, ?_⟩
      · intro c hc
        cases post with
        | nil => simp [pyLower] at hc
        | cons p0 pr =>
          rw [pyLower_cons, List.head?_cons] at hc
          injection hc with hc'
          subst hc'
          rw [isDigitComma_pyLowerChar]
          exact hhead p0 rfl
      · rintro ⟨a, b, r, hpost, ha, hb⟩
        cases post with
        | nil => simp [pyLower] at hpost
        | cons p0 pr =>
          rw [pyLower_cons] at hpost
          injection hpost with h1 h2
          have hp0 : p0 = '.' := pyLowerChar_eq_dot h1
          cases pr with
          | nil => simp [pyLower] at h2
          | cons p1 pr1 =>
            rw [pyLower_cons] at h2
            injection h2 with h3 h4
            cases pr1 with
            | nil => simp [pyLower] at h4
            | cons p2 pr2 =>
              rw [pyLower_cons] at h4
              injection h4 with h5 h6
              apply hnf
              refine ⟨p1, p2, pr2, by rw [hp0], ?_, ?_⟩
              · rw [← isDigit_pyLowerChar p1, h3]; exact ha
              · rw [← isDigit_pyLowerChar p2, h5]; exact hb
    · exact Or.inr hr
  have hsearch : searchPat1 (pyLower s.data) = some (ds ++ frac) := by
    rw [hlow]
    exact searchPat1_decomp hpre2 hg hws hds0 hds hfr2
  have hatt : attemptPattern (searchPat1 (pyLower s.data)) = some (numValue ds frac) := by
    rw [hsearch]
    show (match parseQ ((ds ++ frac).filter (fun c => c != ',')) with
      | none => none
      | some v => if 0 < v then some v else none) = some (numValue ds frac)
    rw [parseQ_token hds hshape hne]
    show (if 0 < numValue ds frac then some (numValue ds frac) else none) =
      some (numValue ds frac)
    exact if_pos hpos
  unfold parse_amount
  dsimp only
  rw [hatt]

/-- Claim C2, as amended: the claim as stated fails when an earlier glyph
starts a non-positive match (see the counterexample); restricted to the
occurrence at the *first* currency glyph of the input, the amount equals the
occurring number exactly, after stripping thousands separators. -/
theorem parse_amount_first_glyph (s : String) (pre : List Char) (g : Char)
    (ws ds frac post : List Char)
    (hocc : GlyphNumAt s pre g ws ds frac post)
    (hpre : ∀ c ∈ pre, c ∉ glyphs)
    (hne : ds.filter (fun c => c != ',') ≠ [] ∨ frac ≠ [])
    (hpos : 0 < numValue ds frac) :
    parse_amount s = some (numValue ds frac) :=
  parse_amount_first_glyph_core s pre g ws ds frac post hocc hpre hne hpos

/-- Counterexample to claim C2 as stated: "₹0 ₹5" contains the currency glyph
`₹` immediately followed by the positive number 5, yet `parse_amount` returns
`none` — the leftmost pattern-1 match is "₹0", its value 0 is discarded, and
the search is not retried further right (the loop moves to the next pattern,
where the leftmost bare number is again "0"). -/
theorem parse_amount_occurrence_cex :
    GlyphNumAt "₹0 ₹5" "₹0 ".data '₹' [] ['5'] [] [] ∧
    0 < numValue ['5'] [] ∧
    parse_amount "₹0 ₹5" ≠ some (numValue ['5'] []) := by
  refine ⟨⟨by decide, by decide, by intro c hc; simp at hc, by decide, by decide,
    Or.inl ⟨rfl, by intro c hc; simp at hc, ?_⟩⟩,
    by with_unfolding_all decide, by with_unfolding_all decide⟩
  rintro ⟨a, b, r, h, -, -⟩
  simp at h

/-- Witness for the amended C2 at a concrete input with separators and a
two-digit fraction. -/
theorem parse_amount_first_glyph_witness :
    numValue ['1', ',', '2', '0', '0'] ['.', '5', '0'] = 2401/2 ∧
    parse_amount "₹1,200.50 lunch" = some (2401/2 : ℚ) := by
  have h1 : numValue ['1', ',', '2', '0', '0'] ['.', '5', '0'] = 2401/2 := by
    simp only [numValue]
    norm_num [show digitsVal (List.filter (fun c => c != ',') ['1', ',', '2', '0', '0']) = 1200
        from by decide,
      show digitsVal (List.drop 1 ['.', '5', '0']) = 50 from by decide,
      show digitsVal ['5', '0'] = 50 from by decide]
  refine ⟨h1, ?_⟩
  have h := parse_amount_first_glyph "₹1,200.50 lunch" [] '₹' []
    ['1', ',', '2', '0', '0'] ['.', '5', '0'] " lunch".data
    ⟨by decide, by decide, by intro c hc; simp at hc, by decide, by decide,
      Or.inr ⟨'5', '0', rfl, by decide, by decide⟩⟩
    (by intro c hc; simp at hc)
    (Or.inl (by decide))
    (by rw [h1]; norm_num)
  rw [h1] at h
  exact h

/-- Claim C10, as amended: with a one-digit fractional part the greedy
matcher keeps only the integer token (the optional `\.[0-9]{2}` needs two
digits), but with two or more fractional digits it keeps exactly the first
two — "₹50.999" yields 50.99, not 50.0 as the claim stated (see the
counterexample). -/
theorem parse_amount_fraction_spec :
    (∀ (s : String) (pre ws ds post : List Char) (g d1 : Char),
      s.data = pre ++ g :: (ws ++ ds ++ ('.' :: d1 :: post)) →
      g ∈ glyphs → (∀ c ∈ pre, c ∉ glyphs) → (∀ c ∈ ws, pySpace c = true) →
      ds ≠ [] → (∀ c ∈ ds, isDigitComma c = true) →
      ds.filter (fun c => c != ',') ≠ [] →
      d1.isDigit = true → (∀ c, post.head? = some c → c.isDigit = false) →
      0 < (digitsVal (ds.filter (fun c => c != ',')) : ℚ) →
      parse_amount s = some ((digitsVal (ds.filter (fun c => c != ',')) : ℚ))) ∧
    (∀ (s : String) (pre ws ds post : List Char) (g d1 d2 : Char),
      s.data = pre ++ g :: (ws ++ ds ++ ('.' :: d1 :: d2 :: post)) →
      g ∈ glyphs → (∀ c ∈ pre, c ∉ glyphs) → (∀ c ∈ ws, pySpace c = true) →
      ds ≠ [] → (∀ c ∈ ds, isDigitComma c = true) →
      d1.isDigit = true → d2.isDigit = true →
      0 < numValue ds ['.', d1, d2] →
      parse_amount s = some (numValue ds ['.', d1, d2])) := by
  constructor
  · intro s pre ws ds post g d1 hs hg hpre hws hds0 hds hne hd1 hpost hpos
    have happ : s.data = pre ++ g :: (ws ++ ds ++ ([] : List Char) ++ ('.' :: d1 :: post)) := by
      simpa using hs
    have hocc : GlyphNumAt s pre g ws ds [] ('.' :: d1 :: post) := by
      refine ⟨happ, hg, hws, hds0, hds, Or.inl ⟨rfl, ?_, ?_⟩⟩
      · intro c hc
        rw [List.head?_cons] at hc
        cases hc
        decide
      · rintro ⟨a, b, r, heq, ha2, hb2⟩
        injection heq with h1 h2
        injection h2 with h3 h4
        subst h3
        subst h4
        exact absurd hb2 (by simpa using hpost b rfl)
    have h := parse_amount_first_glyph_core s pre g ws ds [] ('.' :: d1 :: post) hocc hpre
      (Or.inl hne) (by simpa [numValue] using hpos)
    simpa [numValue] using h
  · intro s pre ws ds post g d1 d2 hs hg hpre hws hds0 hds hd1 hd2 hpos
    have happ : s.data = pre ++ g :: (ws ++ ds ++ ['.', d1, d2] ++ post) := by
      rw [hs]
      simp [List.append_assoc]
    have hocc : GlyphNumAt s pre g ws ds ['.', d1, d2] post :=
      ⟨happ, hg, hws, hds0, hds, Or.inr ⟨d1, d2, rfl, hd1, hd2⟩⟩
    exact parse_amount_first_glyph_core s pre g ws ds ['.', d1, d2] post hocc hpre
      (Or.inr (by simp)) hpos

/-- Counterexample to claim C10 as stated: on "₹50.999" the extractor does
not return the bare integer part 50.0; it keeps the first two fractional
digits and returns 50.99. -/
theorem parse_amount_fraction_cex :
    parse_amount "₹50.999" ≠ some 50 ∧
    parse_amount "₹50.999" = some (5099/100 : ℚ) := by
  have he : parse_amount "₹50.999" = some (5099/100 : ℚ) := by
    with_unfolding_all rfl
  refine ⟨?_, he⟩
  rw [he]
  intro hcon
  rw [Option.some.injEq] at hcon
  norm_num at hcon

/-- Witness for the amended C10: one fractional digit truncates to the
integer part, three fractional digits keep the first two. -/
theorem parse_amount_fraction_witness :
    parse_amount "₹50.9" = some 50 ∧
    parse_amount "₹50.999" = some (5099/100 : ℚ) := by
  have e1 : digitsVal (List.filter (fun c => c != ',') ['5', '0']) = 50 := by decide
  constructor
  · have h := parse_amount_fraction_spec.1 "₹50.9" [] [] ['5', '0'] [] '₹' '9'
      (by decide) (by decide) (by intro c hc; simp at hc) (by decide) (by decide)
      (by decide) (by decide) (by decide) (by intro c hc; simp at hc)
      (by rw [e1]; norm_num)
    rw [show ((digitsVal (List.filter (fun c => c != ',') ['5', '0']) : ℚ)) = 50 by
      rw [e1]; norm_num] at h
    exact h
  · have h2 : numValue ['5', '0'] ['.', '9', '9'] = 5099/100 := by
      simp only [numValue]
      norm_num [show digitsVal (List.filter (fun c => c != ',') ['5', '0']) = 50 from by decide,
        show digitsVal (List.drop 1 ['.', '9', '9']) = 99 from by decide,
        show digitsVal ['9', '9'] = 99 from by decide]
    have h := parse_amount_fraction_spec.2 "₹50.999" [] [] ['5', '0'] ['9'] '₹' '9' '9'
      (by decide) (by decide) (by intro c hc; simp at hc) (by decide) (by decide)
      (by decide) (by decide) (by decide) (by rw [h2]; norm_num)
    rw [h2] at h
    exact h

end FinanceTracker
